import Mathlib

/-!
# Verification of the bulk market-data ingestion pipeline

Shallow embedding of the ingestion scripts `parse_existing_data.py`,
`parse_existing_data_fast.py`, `parse_existing_data_robust.py` and
`parse_existing_data_single.py`.  Strings are modelled as `List Char`,
Python floats as an inductive `PyFloat` (exact rationals for finite
values, plus `inf` / `neginf` / `nan`), the SQLite tables as row lists,
and `INSERT OR REPLACE` / `INSERT OR IGNORE` as the corresponding
replace-on-conflict / insert-if-absent list operations.  A Python
exception escaping a modelled function is an explicit constructor of
the result type.
-/

namespace Ingest

/-- ASCII whitespace recognised by Python's `str.strip()` and by
`float()` argument stripping. -/
def isPySpace (c : Char) : Bool :=
  c = ' ' || c = '\t' || c = '\n' || c = '\x0d' || c = '\x0b' || c = '\x0c'

/-- Models Python `str.strip()`: remove leading and trailing whitespace. -/
def pyStrip (l : List Char) : List Char :=
  ((l.dropWhile isPySpace).reverse.dropWhile isPySpace).reverse

/-- Models Python `str.split(',')`: split on every comma, keeping empty
fields; the empty string yields one empty field. -/
def splitComma : List Char → List (List Char)
  | [] => [[]]
  | c :: rest =>
    if c = ',' then [] :: splitComma rest
    else
      match splitComma rest with
      | f :: fs => (c :: f) :: fs
      | [] => [[c]]

/-- Worker for `pyReplace`, structurally recursive on a fuel counter
that starts at the string's length (enough, since every step consumes
at least one character). -/
def pyReplaceAux (pat : List Char) : ℕ → List Char → List Char
  | _, [] => []
  | 0, s => s
  | fuel + 1, c :: rest =>
    if !pat.isEmpty && pat.isPrefixOf (c :: rest) then
      pyReplaceAux pat fuel ((c :: rest).drop pat.length)
    else c :: pyReplaceAux pat fuel rest

/-- Models Python `s.replace(pat, '')` (replacement by the empty string,
the only form the scripts use): remove every leftmost non-overlapping
occurrence of `pat`, anywhere in the string. -/
def pyReplace (s pat : List Char) : List Char :=
  pyReplaceAux pat s.length s

/-- A Python float value: a finite value is kept exactly as a scaled
decimal `num / 10 ^ pow10`, the representation a decimal literal
denotes (IEEE rounding and overflow-to-infinity are not modelled; no
claim in this development depends on rounding), plus the non-finite
values that `float()` can produce from the literals `inf` / `infinity`
/ `nan`. -/
inductive PyFloat where
  | finite (num : ℤ) (pow10 : ℕ)
  | inf
  | neginf
  | nan
  deriving DecidableEq, Repr

/-- True exactly on finite Python floats. -/
def PyFloat.isFinite : PyFloat → Bool
  | .finite _ _ => true
  | _ => false

/-- Consume an optional sign; return whether it was `-` and the rest. -/
def parseSign : List Char → Bool × List Char
  | '+' :: r => (false, r)
  | '-' :: r => (true, r)
  | l => (false, l)

/-- Consume `(digit | '_' digit)*` after an initial digit has already
been read: accumulates the value; an underscore must be followed by a
digit or scanning stops before it (so Python's "digits around every
underscore" rule makes a trailing or doubled underscore a leftover that
fails the whole parse). Returns (value, digit count, rest). -/
def parseDigitsAux (acc n : ℕ) : List Char → ℕ × ℕ × List Char
  | c :: r =>
    if c.isDigit then parseDigitsAux (10 * acc + (c.toNat - 48)) (n + 1) r
    else if c = '_' then
      match r with
      | d :: r' =>
        if d.isDigit then parseDigitsAux (10 * acc + (d.toNat - 48)) (n + 1) r'
        else (acc, n, c :: r)
      | [] => (acc, n, [c])
    else (acc, n, c :: r)
  | [] => (acc, n, [])

/-- Parse a Python digit part `digit (digit | '_' digit)*`; fails unless
the input starts with a digit. Returns (value, digit count, rest). -/
def parseDigits : List Char → Option (ℕ × ℕ × List Char)
  | c :: r => if c.isDigit then some (parseDigitsAux (c.toNat - 48) 1 r) else none
  | [] => none

/-- Parse the mantissa of a Python float literal:
`digits ['.' [digits]] | '.' digits`. Returns the exact value as a
scaled decimal (numerator, power of ten of the denominator) and the
rest. -/
def parseMantissa (l : List Char) : Option (ℕ × ℕ × List Char) :=
  match l with
  | '.' :: r =>
    match parseDigits r with
    | some (f, n, r') => some (f, n, r')
    | none => none
  | _ =>
    match parseDigits l with
    | some (ip, _, r1) =>
      match r1 with
      | '.' :: r2 =>
        match parseDigits r2 with
        | some (f, n, r3) => some (ip * 10 ^ n + f, n, r3)
        | none => some (ip, 0, r2)
      | _ => some (ip, 0, r1)
    | none => none

/-- Parse an optional exponent `('e'|'E') [sign] digits`; an `e` not
followed by digits fails the whole parse, absence yields exponent 0. -/
def parseExp (l : List Char) : Option (ℤ × List Char) :=
  match l with
  | c :: r =>
    if c = 'e' || c = 'E' then
      let (neg, r2) := parseSign r
      match parseDigits r2 with
      | some (e, _, r3) => some ((if neg then -(e : ℤ) else (e : ℤ)), r3)
      | none => none
    else some (0, c :: r)
  | [] => some (0, [])

/-- Models Python's `float(s)` on ASCII input: strip whitespace, read an
optional sign, then either a case-insensitive `inf` / `infinity` / `nan`
keyword or a numeric literal with optional fraction and exponent; any
leftover character fails. `None` models the `ValueError` that the
parser's `try` block catches. -/
def pyFloatOfChars (l : List Char) : Option PyFloat :=
  let s := pyStrip l
  let (neg, r) := parseSign s
  let low := r.map Char.toLower
  if low = "inf".data || low = "infinity".data then
    some (if neg then .neginf else .inf)
  else if low = "nan".data then some .nan
  else
    match parseMantissa r with
    | none => none
    | some (m, p10, r1) =>
      match parseExp r1 with
      | none => none
      | some (e, r2) =>
        if r2 = [] then
          let num : ℕ := if 0 ≤ e then m * 10 ^ e.toNat else m
          let pow10 : ℕ := if 0 ≤ e then p10 else p10 + (-e).toNat
          some (.finite (if neg then -(num : ℤ) else (num : ℤ)) pow10)
        else none

/-- A parsed price-bar record, as built by `parse_csv_line`:
the dict `{'symbol', 'date', 'open', 'high', 'low', 'close', 'volume'}`.
`open` is a Lean keyword, so the field keeps the source's variable name
`open_price`. -/
structure PriceBar where
  symbol : List Char
  date : List Char
  open_price : PyFloat
  high : PyFloat
  low : PyFloat
  close : PyFloat
  volume : PyFloat
  deriving DecidableEq, Repr

/-- Outcome of `parse_csv_line` on one line: a record, `None`
(rejection), or a Python exception escaping the function (the
`ValueError` raised by unpacking more than 10 fields, which the
function does not catch). -/
inductive ParseResult where
  | ok (bar : PriceBar)
  | reject
  | exn
  deriving DecidableEq, Repr

/-- The header sentinel `'<TICKER>'`. -/
def tickerSentinel : List Char := "<TICKER>".data

/-- The body of `parse_csv_line` once the ten fields are bound: the
header/blank check, the date slicing `date[:4]`, `date[4:6]`,
`date[6:8]` joined with hyphens, the ticker `.replace('.US','')
.replace('.us','')` normalisation, and the five `float()` calls whose
failure rejects the whole record. -/
def parse10 (ticker date open_price high low close volume : List Char) :
    ParseResult :=
  if ticker = tickerSentinel || ticker = [] || date = [] then .reject
  else
    let formatted_date :=
      date.take 4 ++ '-' :: (date.drop 4).take 2 ++ '-' :: (date.drop 6).take 2
    match pyFloatOfChars open_price, pyFloatOfChars high, pyFloatOfChars low,
        pyFloatOfChars close, pyFloatOfChars volume with
    | some o, some h, some l, some c, some v =>
      .ok ⟨pyReplace (pyReplace ticker ".US".data) ".us".data,
           formatted_date, o, h, l, c, v⟩
    | _, _, _, _, _ => .reject

/-- `parse_csv_line` after `line.strip().split(',')`: fewer than 10
fields is rejected; exactly 10 fields are unpacked and parsed; more
than 10 fields makes the tuple unpacking raise `ValueError`, which is
outside the function's `try` block. -/
def parseFields (parts : List (List Char)) : ParseResult :=
  if parts.length < 10 then .reject
  else
    match parts with
    | [ticker, _period, date, _time, open_price, high, low, close, volume,
       _openint] => parse10 ticker date open_price high low close volume
    | _ => .exn

/-- Models `parse_csv_line(line)` (identical in all four scripts). -/
def parse_csv_line (line : List Char) : ParseResult :=
  parseFields (splitComma (pyStrip line))

/-! ## The price-bar table and the file ingestor -/

/-- One row of the `historical_prices` table. -/
structure Row where
  symbol : List Char
  date : List Char
  open_price : PyFloat
  high : PyFloat
  low : PyFloat
  close : PyFloat
  volume : PyFloat
  deriving DecidableEq, Repr

/-- The primary key `(symbol, date)` of a price-bar row. -/
def Row.key (r : Row) : List Char × List Char := (r.symbol, r.date)

/-- The `historical_prices` table, a list of rows. -/
abbrev Table := List Row

/-- The row a parsed record is inserted as. -/
def rowOfBar (b : PriceBar) : Row :=
  ⟨b.symbol, b.date, b.open_price, b.high, b.low, b.close, b.volume⟩

/-- Models `INSERT OR REPLACE INTO historical_prices`: SQLite deletes
any row conflicting on the primary key `(symbol, date)` and inserts the
new row. -/
def upsertRow (t : Table) (r : Row) : Table :=
  (List.filter (fun r' => !decide (r'.key = r.key)) t) ++ [r]

/-- The last row with the given key, i.e. what a primary-key lookup
returns on a table whose latest write wins. -/
def lookupKey (t : Table) (k : List Char × List Char) : Option Row :=
  t.reverse.find? (fun r => decide (r.key = k))

/-- Number of rows of the table carrying the given key. -/
def countKey (t : Table) (k : List Char × List Char) : ℕ :=
  (List.filter (fun r => decide (r.key = k)) t).length

/-- The table's keys are pairwise distinct (the primary-key invariant). -/
def keysNodup (t : Table) : Prop :=
  (t.map Row.key).Nodup

/-- The loop of `process_data_file` over the data lines: each line is
parsed; a record is upserted and counted in `processed`, a rejection is
counted in `errors`, and an escaping exception stops the loop — the
file-level `except` handler then adds one more error (the remaining
lines are never visited).  A database error on insert (which the code
counts as an error) is not modelled: the pure upsert always succeeds. -/
def ingestLoop : Table → List (List Char) → ℕ → ℕ → Table × ℕ × ℕ
  | t, [], processed, errors => (t, processed, errors)
  | t, l :: rest, processed, errors =>
    match parse_csv_line l with
    | .ok bar => ingestLoop (upsertRow t (rowOfBar bar)) rest (processed + 1) errors
    | .reject => ingestLoop t rest processed (errors + 1)
    | .exn => (t, processed, errors + 1)

/-- Models `process_data_file(file_path, exchange, db_conn)` on a
readable file: the first line is discarded unconditionally and the rest
run through the loop.  The `exchange` argument is part of the source
signature but unused by the function's price writes. -/
def process_data_file (exchange : List Char) (t : Table)
    (lines : List (List Char)) : Table × ℕ × ℕ :=
  ingestLoop t (lines.drop 1) 0 0

/-- The last record staged for a key by the line sequence, taking into
account that an escaping parse exception stops the loop: lines after an
exception line contribute nothing. -/
def lastOk : List (List Char) → List Char × List Char → Option Row
  | [], _ => none
  | l :: rest, k =>
    match parse_csv_line l with
    | .ok bar =>
      match lastOk rest k with
      | some r => some r
      | none => if (rowOfBar bar).key = k then some (rowOfBar bar) else none
    | .reject => lastOk rest k
    | .exn => none

/-- Two raw lines that split into ten fields agreeing on ticker (0),
date (2) and the five numeric fields (4–8) — they may differ in the
period (1), time (3) and open-interest (9) fields, which the parser
discards. -/
abbrev sameCore (l1 l2 : List Char) : Prop :=
  (splitComma (pyStrip l1)).length = 10 ∧
  (splitComma (pyStrip l2)).length = 10 ∧
  (splitComma (pyStrip l1))[0]? = (splitComma (pyStrip l2))[0]? ∧
  (splitComma (pyStrip l1))[2]? = (splitComma (pyStrip l2))[2]? ∧
  (splitComma (pyStrip l1))[4]? = (splitComma (pyStrip l2))[4]? ∧
  (splitComma (pyStrip l1))[5]? = (splitComma (pyStrip l2))[5]? ∧
  (splitComma (pyStrip l1))[6]? = (splitComma (pyStrip l2))[6]? ∧
  (splitComma (pyStrip l1))[7]? = (splitComma (pyStrip l2))[7]? ∧
  (splitComma (pyStrip l1))[8]? = (splitComma (pyStrip l2))[8]?

/-! ## The symbols table -/

/-- One row of the `symbols` table: `(symbol, name, exchange)` with
primary key `symbol`. -/
structure SymbolRow where
  symbol : List Char
  name : List Char
  exchange : List Char
  deriving DecidableEq, Repr

/-- The `symbols` table. -/
abbrev SymTable := List SymbolRow

/-- Models the registration step of `process_directory`:
`INSERT OR IGNORE INTO symbols (symbol, name, exchange) VALUES (?, ?, ?)`
with the values `(symbol, symbol, exchange)` — insert-if-absent on the
primary key `symbol`; an existing row is left untouched. -/
def addSymbol (tbl : SymTable) (sym exchange : List Char) : SymTable :=
  if tbl.any (fun r => decide (r.symbol = sym)) then tbl
  else tbl ++ [⟨sym, sym, exchange⟩]

/-- Primary-key lookup in the `symbols` table (first matching row). -/
def lookupSym (tbl : SymTable) (sym : List Char) : Option SymbolRow :=
  tbl.find? (fun r => decide (r.symbol = sym))

/-! ## The data-freshness summarizer -/

/-- One row of the `data_freshness` table: primary key `symbol`, with
`last_updated` a timestamp, `status` a string and `error_count` a
number. -/
structure FreshRow where
  symbol : List Char
  last_updated : ℕ
  status : List Char
  error_count : ℕ
  deriving DecidableEq, Repr

/-- The `data_freshness` table. -/
abbrev FreshTable := List FreshRow

/-- Models `INSERT OR REPLACE INTO data_freshness` keyed by `symbol`. -/
def upsertFresh (tbl : FreshTable) (r : FreshRow) : FreshTable :=
  (List.filter (fun r' => !decide (r'.symbol = r.symbol)) tbl) ++ [r]

/-- Primary-key lookup in the freshness table (last write wins). -/
def lookupFresh (tbl : FreshTable) (sym : List Char) : Option FreshRow :=
  tbl.reverse.find? (fun r => decide (r.symbol = sym))

/-- Number of freshness rows carrying the given symbol. -/
def countFresh (tbl : FreshTable) (sym : List Char) : ℕ :=
  (List.filter (fun r => decide (r.symbol = sym)) tbl).length

/-- The distinct symbols of the price-bar table, as produced by
`SELECT symbol, COUNT(*), MIN(date), MAX(date) FROM historical_prices
GROUP BY symbol`: one group per distinct symbol. -/
def groupSymbols (t : Table) : List (List Char) :=
  (t.map Row.symbol).dedup

/-- Models `update_data_freshness(db_conn)`: for every symbol present
in `historical_prices`, upsert one freshness row with `last_updated`
set to the summarization time `now` (modelling `datetime('now')`),
`status` `'active'` and `error_count` `0`.  Symbols with no price rows
get nothing written. -/
def update_data_freshness (fresh : FreshTable) (prices : Table) (now : ℕ) :
    FreshTable :=
  (groupSymbols prices).foldl
    (fun tbl s => upsertFresh tbl ⟨s, now, "active".data, 0⟩) fresh

/-! ## The final throughput report -/

/-- Outcome of the final records-per-second report line of `main`:
either a rate is printed, or the line is skipped by a guard, or the
division raises `ZeroDivisionError`.  Elapsed time is modelled as an
exact rational. -/
inductive SpeedReport where
  | printed (rate : ℚ)
  | skipped
  | zeroDivError
  deriving DecidableEq, Repr

/-- Models the report of `parse_existing_data_fast.py`'s `main`:
`print(f"... {grand_total_processed/duration:,.0f} ...")` with no
guard — Python raises `ZeroDivisionError` when `duration == 0`. -/
def fastSpeedReport (total : ℕ) (duration : ℚ) : SpeedReport :=
  if duration = 0 then .zeroDivError else .printed ((total : ℚ) / duration)

/-- Models the report of `parse_existing_data_robust.py`'s `main`:
the division is under `if duration > 0:`; otherwise the line is
skipped. -/
def robustSpeedReport (total : ℕ) (duration : ℚ) : SpeedReport :=
  if 0 < duration then .printed ((total : ℚ) / duration) else .skipped

/-- Models the report of `parse_existing_data_single.py`'s `main`:
identical guard `if duration > 0:`. -/
def singleSpeedReport (total : ℕ) (duration : ℚ) : SpeedReport :=
  if 0 < duration then .printed ((total : ℚ) / duration) else .skipped

/-! ## Supporting lemmas -/

/-- The ten-field body never produces the escaping-exception outcome:
all its branches return a record or a rejection. -/
theorem parse10_ne_exn (t d o hi lo c v : List Char) :
    parse10 t d o hi lo c v ≠ .exn := by
  unfold parse10
  split
  · simp
  · split <;> simp

/-- Characterisation of the escaping exception: `parse_csv_line`
raises (the `ValueError` of tuple unpacking) exactly on lines whose
comma-split has more than 10 fields. -/
theorem parseFields_exn_iff (parts : List (List Char)) :
    parseFields parts = .exn ↔ 10 < parts.length := by
  rcases parts with _ | ⟨x0, _ | ⟨x1, _ | ⟨x2, _ | ⟨x3, _ | ⟨x4, _ | ⟨x5, _ |
    ⟨x6, _ | ⟨x7, _ | ⟨x8, _ | ⟨x9, _ | ⟨x10, rest⟩⟩⟩⟩⟩⟩⟩⟩⟩⟩⟩
  all_goals simp [parseFields, parse10_ne_exn]

/-- Removing every `q`-element does not change the first `p`-element,
provided `p`-elements are never `q`-elements. -/
theorem find?_filter_not_of_imp {α : Type} (l : List α) (p q : α → Bool)
    (hpq : ∀ x, p x = true → q x = false) :
    (l.filter (fun x => !q x)).find? p = l.find? p := by
  induction l with
  | nil => rfl
  | cons a l ih =>
    cases hq : q a with
    | true =>
      have hp : p a = false := by
        cases hpa : p a with
        | true => rw [hpq a hpa] at hq; cases hq
        | false => rfl
      simp [List.filter_cons, hq, List.find?_cons, hp, ih]
    | false =>
      cases hpa : p a <;> simp [List.filter_cons, hq, List.find?_cons, hpa, ih]

/-- Filtering by `p` after removing every `p`-element yields nothing. -/
theorem filter_filter_not_self {α : Type} (l : List α) (p : α → Bool) :
    (l.filter (fun x => !p x)).filter p = [] := by
  induction l with
  | nil => rfl
  | cons a l ih => cases hpa : p a <;> simp [List.filter_cons, hpa, ih]

/-- Removing every `q`-element does not change the `p`-elements,
provided `p`-elements are never `q`-elements. -/
theorem filter_filter_not_of_imp {α : Type} (l : List α) (p q : α → Bool)
    (hpq : ∀ x, p x = true → q x = false) :
    (l.filter (fun x => !q x)).filter p = l.filter p := by
  induction l with
  | nil => rfl
  | cons a l ih =>
    cases hq : q a with
    | true =>
      have hp : p a = false := by
        cases hpa : p a with
        | true => rw [hpq a hpa] at hq; cases hq
        | false => rfl
      simp [List.filter_cons, hq, hp, ih]
    | false => cases hpa : p a <;> simp [List.filter_cons, hq, hpa, ih]

/-- A search skips a prefix none of whose elements satisfies it. -/
theorem find?_append_none {α : Type} (l1 l2 : List α) (p : α → Bool)
    (h : ∀ x ∈ l1, ¬ p x = true) : (l1 ++ l2).find? p = l2.find? p := by
  induction l1 with
  | nil => rfl
  | cons a tl ih =>
    rw [List.cons_append, List.find?_cons_of_neg _ (h a (List.mem_cons_self _ _))]
    exact ih (fun x hx => h x (List.mem_cons_of_mem _ hx))

/-- A replace-on-conflict write makes lookups return the new row at its
key and leaves every other key's lookup unchanged. -/
theorem lookupKey_upsertRow (t : Table) (r : Row) (k : List Char × List Char) :
    lookupKey (upsertRow t r) k = if r.key = k then some r else lookupKey t k := by
  unfold lookupKey upsertRow
  rw [List.reverse_append]
  by_cases hk : r.key = k
  · subst hk; simp
  · have hfilt : (List.filter (fun r' => !decide (r'.key = r.key)) t).reverse =
        t.reverse.filter (fun r' => !decide (r'.key = r.key)) := by
      simp [List.filter_reverse]
    simp only [List.reverse_singleton, List.singleton_append]
    rw [List.find?_cons_of_neg _ (by simp [hk]), hfilt,
      find?_filter_not_of_imp, if_neg hk]
    intro x hx
    simp only [decide_eq_true_eq] at hx
    simp only [decide_eq_false_iff_not]
    intro hxr
    exact hk (by rw [← hxr]; exact hx)

/-- A replace-on-conflict write leaves exactly one row at its key and
does not change how many rows other keys have. -/
theorem countKey_upsertRow (t : Table) (r : Row) (k : List Char × List Char) :
    countKey (upsertRow t r) k = if r.key = k then 1 else countKey t k := by
  unfold countKey upsertRow
  rw [List.filter_append]
  by_cases hk : r.key = k
  · subst hk
    rw [filter_filter_not_self]
    simp
  · have hr : (decide (r.key = k)) = false := by simp [hk]
    rw [filter_filter_not_of_imp, if_neg hk]
    · simp [List.filter_cons, hr]
    · intro x hx
      simp only [decide_eq_true_eq] at hx
      simp only [decide_eq_false_iff_not]
      intro hxr
      exact hk (by rw [← hxr]; exact hx)

/-- A replace-on-conflict write preserves the primary-key invariant. -/
theorem keysNodup_upsertRow (t : Table) (r : Row) (h : keysNodup t) :
    keysNodup (upsertRow t r) := by
  unfold keysNodup upsertRow
  rw [List.map_append, List.nodup_append]
  refine ⟨?_, by simp, ?_⟩
  · exact List.Nodup.sublist ((List.filter_sublist t).map Row.key) h
  · intro x hx
    simp only [List.mem_map] at hx
    obtain ⟨row, hrow, hkey⟩ := hx
    have := List.of_mem_filter hrow
    simp only [Bool.not_eq_true', decide_eq_false_iff_not] at this
    simp only [List.map_cons, List.map_nil, List.mem_singleton]
    intro hcontra
    exact this (hkey.trans hcontra)

/-- What the ingest loop leaves at a key: the last record the lines
stage for it, or the table's prior row when the lines stage none. -/
theorem lookupKey_ingestLoop (ls : List (List Char)) (t : Table)
    (p e : ℕ) (k : List Char × List Char) :
    lookupKey (ingestLoop t ls p e).1 k =
      (lastOk ls k).elim (lookupKey t k) some := by
  induction ls generalizing t p e with
  | nil => rfl
  | cons l rest ih =>
    unfold ingestLoop lastOk
    cases hp : parse_csv_line l with
    | ok bar =>
      simp only []
      rw [ih]
      cases hlo : lastOk rest k with
      | some r => simp
      | none =>
        simp only [Option.elim]
        rw [lookupKey_upsertRow]
        by_cases hkey : (rowOfBar bar).key = k
        · simp [hkey]
        · simp [hkey]
    | reject => simp only []; rw [ih]
    | exn => rfl

/-- The ingest loop preserves the primary-key invariant of the
price-bar table. -/
theorem keysNodup_ingestLoop (ls : List (List Char)) (t : Table)
    (p e : ℕ) (h : keysNodup t) : keysNodup (ingestLoop t ls p e).1 := by
  induction ls generalizing t p e with
  | nil => exact h
  | cons l rest ih =>
    unfold ingestLoop
    cases hp : parse_csv_line l with
    | ok bar => exact ih _ _ _ (keysNodup_upsertRow _ _ h)
    | reject => exact ih _ _ _ h
    | exn => exact h

/-- As long as no line raises past the parser, the loop counts every
line exactly once, as processed or as an error. -/
theorem ingestLoop_counts (ls : List (List Char)) (t : Table) (p e : ℕ)
    (h : ∀ l ∈ ls, parse_csv_line l ≠ .exn) :
    (ingestLoop t ls p e).2.1 + (ingestLoop t ls p e).2.2 =
      p + e + ls.length := by
  induction ls generalizing t p e with
  | nil => simp [ingestLoop]
  | cons l rest ih =>
    unfold ingestLoop
    cases hp : parse_csv_line l with
    | ok bar =>
      rw [ih _ _ _ (fun l' hl' => h l' (List.mem_cons_of_mem _ hl'))]
      simp; omega
    | reject =>
      rw [ih _ _ _ (fun l' hl' => h l' (List.mem_cons_of_mem _ hl'))]
      simp; omega
    | exn => exact absurd hp (h l (List.mem_cons_self _ _))

/-- A freshness upsert makes lookups return the new row at its symbol
and leaves other symbols' lookups unchanged. -/
theorem lookupFresh_upsertFresh (tbl : FreshTable) (r : FreshRow)
    (s : List Char) :
    lookupFresh (upsertFresh tbl r) s =
      if r.symbol = s then some r else lookupFresh tbl s := by
  unfold lookupFresh upsertFresh
  rw [List.reverse_append]
  by_cases hs : r.symbol = s
  · subst hs; simp
  · have hfilt : (List.filter (fun r' => !decide (r'.symbol = r.symbol)) tbl).reverse =
        tbl.reverse.filter (fun r' => !decide (r'.symbol = r.symbol)) := by
      simp [List.filter_reverse]
    simp only [List.reverse_singleton, List.singleton_append]
    rw [List.find?_cons_of_neg _ (by simp [hs]), hfilt,
      find?_filter_not_of_imp, if_neg hs]
    intro x hx
    simp only [decide_eq_true_eq] at hx
    simp only [decide_eq_false_iff_not]
    intro hxr
    exact hs (by rw [← hxr]; exact hx)

/-- A freshness upsert leaves exactly one row at its symbol and does
not change other symbols' row counts. -/
theorem countFresh_upsertFresh (tbl : FreshTable) (r : FreshRow)
    (s : List Char) :
    countFresh (upsertFresh tbl r) s =
      if r.symbol = s then 1 else countFresh tbl s := by
  unfold countFresh upsertFresh
  rw [List.filter_append]
  by_cases hs : r.symbol = s
  · subst hs
    rw [filter_filter_not_self]
    simp
  · have hr : (decide (r.symbol = s)) = false := by simp [hs]
    rw [filter_filter_not_of_imp, if_neg hs]
    · simp [List.filter_cons, hr]
    · intro x hx
      simp only [decide_eq_true_eq] at hx
      simp only [decide_eq_false_iff_not]
      intro hxr
      exact hs (by rw [← hxr]; exact hx)

/-- What the summarization fold leaves at a symbol: the fresh record
when the symbol is among the summarized ones, the prior row otherwise. -/
theorem lookupFresh_fold (syms : List (List Char)) (fresh : FreshTable)
    (now : ℕ) (s : List Char) :
    lookupFresh
        (syms.foldl (fun tbl x => upsertFresh tbl ⟨x, now, "active".data, 0⟩)
          fresh) s =
      if s ∈ syms then some ⟨s, now, "active".data, 0⟩
      else lookupFresh fresh s := by
  induction syms generalizing fresh with
  | nil => simp
  | cons x rest ih =>
    rw [List.foldl_cons, ih]
    by_cases hin : s ∈ rest
    · simp [hin, List.mem_cons]
    · rw [lookupFresh_upsertFresh]
      by_cases hx : x = s
      · subst hx; simp [hin]
      · simp [hin, hx, List.mem_cons, Ne.symm hx]

/-- How many rows the summarization fold leaves at a symbol: exactly
one for summarized symbols, the prior count otherwise. -/
theorem countFresh_fold (syms : List (List Char)) (fresh : FreshTable)
    (now : ℕ) (s : List Char) :
    countFresh
        (syms.foldl (fun tbl x => upsertFresh tbl ⟨x, now, "active".data, 0⟩)
          fresh) s =
      if s ∈ syms then 1 else countFresh fresh s := by
  induction syms generalizing fresh with
  | nil => simp
  | cons x rest ih =>
    rw [List.foldl_cons, ih]
    by_cases hin : s ∈ rest
    · simp [hin, List.mem_cons]
    · rw [countFresh_upsertFresh]
      by_cases hx : x = s
      · subst hx; simp [hin]
      · simp [hin, hx, List.mem_cons, Ne.symm hx]

/-! ## Claim theorems -/

/-- C1 (counterexample): a line splitting into 11 comma-separated
fields slips past the `len(parts) < 10` guard and makes the ten-name
tuple unpacking raise `ValueError` outside the `try` block — the
exception escapes `parse_csv_line`, so the parser does not return a
record or a rejection for every line. -/
theorem parse_csv_line_exn_on_eleven_fields :
    parse_csv_line "a,b,c,d,e,f,g,h,i,j,k".data = .exn ∧
    (splitComma (pyStrip "a,b,c,d,e,f,g,h,i,j,k".data)).length = 11 := by
  decide

/-- C1 (amended): `parse_csv_line` produces a record or a rejection —
never an escaping exception — for precisely the lines splitting into
at most 10 comma-separated fields; on a line splitting into more than
10 fields the tuple unpacking raises `ValueError` past the parser
boundary (it is caught only by the file-level handler). -/
theorem parse_csv_line_exn_iff (line : List Char) :
    parse_csv_line line = .exn ↔
      10 < (splitComma (pyStrip line)).length :=
  parseFields_exn_iff _

/-- C2 (counterexample): a line whose date field is `2023` — four
digits, not eight — is not rejected: the parser accepts it and emits a
record whose date is the malformed string `2023--`, because the code
never checks the date field's length or digits beyond non-emptiness. -/
theorem parse_csv_line_accepts_short_date :
    (splitComma (pyStrip "ABC,D,2023,000000,1,2,3,4,5,0".data))[2]? =
      some "2023".data ∧
    ("2023".data).length ≠ 8 ∧
    parse_csv_line "ABC,D,2023,000000,1,2,3,4,5,0".data =
      .ok ⟨"ABC".data, "2023--".data, .finite 1 0, .finite 2 0, .finite 3 0,
        .finite 4 0, .finite 5 0⟩ := by
  decide

/-- C2 (amended): the parser performs no length or digit validation on
the date field at all — any ten-field line with a non-empty date, a
non-header non-empty ticker and five `float()`-parsable numeric fields
is accepted, and the record's date is the field's characters 0–3, 4–5
and 6–7 joined with hyphens (so an 8-digit field becomes YYYY-MM-DD
with no calendar validity check, and a shorter field yields a
truncated date). -/
theorem parse_date_sliced_unvalidated
    (ticker period date time o hi lo c v oi : List Char)
    (fo fh fl fc fv : PyFloat)
    (ht : ticker ≠ tickerSentinel) (ht2 : ticker ≠ []) (hd : date ≠ [])
    (ho : pyFloatOfChars o = some fo) (hh : pyFloatOfChars hi = some fh)
    (hl : pyFloatOfChars lo = some fl) (hc : pyFloatOfChars c = some fc)
    (hv : pyFloatOfChars v = some fv) :
    parseFields [ticker, period, date, time, o, hi, lo, c, v, oi] =
      .ok ⟨pyReplace (pyReplace ticker ".US".data) ".us".data,
        date.take 4 ++ '-' :: (date.drop 4).take 2 ++
          '-' :: (date.drop 6).take 2,
        fo, fh, fl, fc, fv⟩ := by
  show parse10 ticker date o hi lo c v = _
  unfold parse10
  rw [if_neg (by simp [ht, ht2, hd])]
  rw [ho, hh, hl, hc, hv]

/-- C2 (witness): a ten-field line whose date field is `20231399` —
month 13, day 99 — is accepted, with date `2023-13-99`. -/
theorem parse_date_sliced_unvalidated_witness :
    parseFields ["ABC".data, "D".data, "20231399".data, "000000".data,
      "1".data, "2".data, "3".data, "4".data, "5".data, "0".data] =
      .ok ⟨"ABC".data, "2023-13-99".data, .finite 1 0, .finite 2 0,
        .finite 3 0, .finite 4 0, .finite 5 0⟩ :=
  (parse_date_sliced_unvalidated "ABC".data "D".data "20231399".data
    "000000".data "1".data "2".data "3".data "4".data "5".data "0".data
    (.finite 1 0) (.finite 2 0) (.finite 3 0) (.finite 4 0) (.finite 5 0)
    (by decide) (by decide) (by decide) (by decide) (by decide) (by decide)
    (by decide) (by decide)).trans (by decide)

/-- C3 (counterexample): the ticker `A.USB` contains `.US` only in the
interior, not as a suffix, yet the emitted symbol is `AB`: Python's
`str.replace` removes every occurrence, so an occurrence of `.US`
elsewhere in the ticker is not left intact. -/
theorem parse_csv_line_strips_interior_dotUS :
    parse_csv_line "A.USB,D,20230101,0,1,2,3,4,5,0".data =
      .ok ⟨"AB".data, "2023-01-01".data, .finite 1 0, .finite 2 0,
        .finite 3 0, .finite 4 0, .finite 5 0⟩ ∧
    ("AB".data : List Char) ≠ "A.USB".data := by
  decide

/-- C3 (amended): for every accepted line, the emitted symbol is the
ticker with every occurrence of `.US` removed and then every
occurrence of `.us` removed — anywhere in the ticker, not only as a
trailing suffix (these are still the only two case-sensitive forms
touched). -/
theorem parse_symbol_replace_all
    (ticker period date time o hi lo c v oi : List Char) (bar : PriceBar)
    (h : parseFields [ticker, period, date, time, o, hi, lo, c, v, oi] =
      .ok bar) :
    bar.symbol = pyReplace (pyReplace ticker ".US".data) ".us".data := by
  have h' : parse10 ticker date o hi lo c v = .ok bar := h
  unfold parse10 at h'
  split at h'
  · exact absurd h' (by simp)
  · split at h'
    · injection h' with h''
      rw [← h'']
    · exact absurd h' (by simp)

/-- C3 (witness): instantiated on the `A.USB` line, the symbol equals
the double-`replace` normalisation of the ticker. -/
theorem parse_symbol_replace_all_witness :
    ("AB".data : List Char) =
      pyReplace (pyReplace "A.USB".data ".US".data) ".us".data :=
  parse_symbol_replace_all "A.USB".data "D".data "20230101".data "0".data
    "1".data "2".data "3".data "4".data "5".data "0".data
    ⟨"AB".data, "2023-01-01".data, .finite 1 0, .finite 2 0, .finite 3 0,
      .finite 4 0, .finite 5 0⟩ (by decide)

/-- C4 (counterexample): the open field `inf` parses as a Python float,
the line is accepted, and the resulting price-bar row — stored by the
file ingestor — carries an infinite open value: the pipeline does store
non-finite numeric fields. -/
theorem parse_csv_line_accepts_inf :
    parse_csv_line "ABC,D,20230101,0,inf,2,3,4,5,0".data =
      .ok ⟨"ABC".data, "2023-01-01".data, .inf, .finite 2 0, .finite 3 0,
        .finite 4 0, .finite 5 0⟩ ∧
    PyFloat.isFinite .inf = false ∧
    (process_data_file "NASDAQ".data []
        ["header".data, "ABC,D,20230101,0,inf,2,3,4,5,0".data]).1 =
      [⟨"ABC".data, "2023-01-01".data, .inf, .finite 2 0, .finite 3 0,
        .finite 4 0, .finite 5 0⟩] := by
  decide

/-- C4 (amended): every record the parser emits carries, in each of its
five numeric fields, exactly the value `float()` produced for the
corresponding input field — the parse must succeed, but nothing
enforces finiteness, so non-finite parses such as `inf` or `nan` are
stored as-is. -/
theorem parse_fields_are_float_parses
    (ticker period date time o hi lo c v oi : List Char) (bar : PriceBar)
    (h : parseFields [ticker, period, date, time, o, hi, lo, c, v, oi] =
      .ok bar) :
    pyFloatOfChars o = some bar.open_price ∧
    pyFloatOfChars hi = some bar.high ∧
    pyFloatOfChars lo = some bar.low ∧
    pyFloatOfChars c = some bar.close ∧
    pyFloatOfChars v = some bar.volume := by
  have h' : parse10 ticker date o hi lo c v = .ok bar := h
  unfold parse10 at h'
  split at h'
  · exact absurd h' (by simp)
  · split at h'
    · injection h' with h''
      rename_i heqo heqh heql heqc heqv
      rw [← h'']
      exact ⟨heqo, heqh, heql, heqc, heqv⟩
    · exact absurd h' (by simp)

/-- C4 (witness): instantiated on the `inf` line, the stored open value
is the (non-finite) float parse of the field `inf`. -/
theorem parse_fields_are_float_parses_witness :
    pyFloatOfChars "inf".data = some PyFloat.inf ∧
    pyFloatOfChars "2".data = some (PyFloat.finite 2 0) ∧
    pyFloatOfChars "3".data = some (PyFloat.finite 3 0) ∧
    pyFloatOfChars "4".data = some (PyFloat.finite 4 0) ∧
    pyFloatOfChars "5".data = some (PyFloat.finite 5 0) :=
  parse_fields_are_float_parses "ABC".data "D".data "20230101".data "0".data
    "inf".data "2".data "3".data "4".data "5".data "0".data
    ⟨"ABC".data, "2023-01-01".data, .inf, .finite 2 0, .finite 3 0,
      .finite 4 0, .finite 5 0⟩ (by decide)

/-- C5: ingesting a file twice leaves the price-bar table in the same
state as ingesting it once — the table keeps the primary-key invariant
(exactly one row per `(symbol, date)`, no duplicates), and every key
holds the value of the latest write, unchanged by the second pass. -/
theorem reingest_idempotent (exchange : List Char) (t : Table)
    (lines : List (List Char)) (hnd : keysNodup t) :
    keysNodup (process_data_file exchange t lines).1 ∧
    ∀ k, lookupKey (process_data_file exchange
        (process_data_file exchange t lines).1 lines).1 k =
      lookupKey (process_data_file exchange t lines).1 k := by
  constructor
  · exact keysNodup_ingestLoop _ _ _ _ hnd
  · intro k
    unfold process_data_file
    rw [lookupKey_ingestLoop]
    cases hlo : lastOk (lines.drop 1) k with
    | none => simp
    | some r => rw [lookupKey_ingestLoop, hlo]; simp

/-- C5 (witness): re-ingesting a one-record file over the empty table
keeps key uniqueness and leaves the `AAPL` row's lookup unchanged. -/
theorem reingest_idempotent_witness :
    keysNodup (process_data_file "NASDAQ".data [] ["header".data,
      "AAPL.US,D,20230103,000000,125.0,130.5,124.0,129.0,1000000,0".data]).1 ∧
    lookupKey (process_data_file "NASDAQ".data
        (process_data_file "NASDAQ".data [] ["header".data,
          "AAPL.US,D,20230103,000000,125.0,130.5,124.0,129.0,1000000,0".data]).1
        ["header".data,
          "AAPL.US,D,20230103,000000,125.0,130.5,124.0,129.0,1000000,0".data]).1
      ("AAPL".data, "2023-01-03".data) =
    lookupKey (process_data_file "NASDAQ".data [] ["header".data,
        "AAPL.US,D,20230103,000000,125.0,130.5,124.0,129.0,1000000,0".data]).1
      ("AAPL".data, "2023-01-03".data) := by
  have h := reingest_idempotent "NASDAQ".data [] ["header".data,
    "AAPL.US,D,20230103,000000,125.0,130.5,124.0,129.0,1000000,0".data]
    (by simp [keysNodup])
  exact ⟨h.1, h.2 ("AAPL".data, "2023-01-03".data)⟩

/-- C6: registering a symbol the first time inserts one row carrying
the exchange label in effect at that moment, and any later sighting —
under any exchange label — leaves the table exactly as it was, so the
first row's exchange and display name are never updated. -/
theorem symbol_insert_if_absent (tbl : SymTable) (sym e1 e2 : List Char)
    (habs : lookupSym tbl sym = none) :
    lookupSym (addSymbol tbl sym e1) sym = some ⟨sym, sym, e1⟩ ∧
    addSymbol (addSymbol tbl sym e1) sym e2 = addSymbol tbl sym e1 := by
  have hall := List.find?_eq_none.mp habs
  have hany : (tbl.any fun r => decide (r.symbol = sym)) = false := by
    rw [Bool.eq_false_iff]
    intro hcontra
    obtain ⟨x, hx, hpx⟩ := List.any_eq_true.mp hcontra
    exact hall x hx hpx
  have h1 : addSymbol tbl sym e1 = tbl ++ [⟨sym, sym, e1⟩] := by
    unfold addSymbol
    rw [hany]
    simp
  have h2 : lookupSym (addSymbol tbl sym e1) sym = some ⟨sym, sym, e1⟩ := by
    rw [h1]
    unfold lookupSym
    rw [find?_append_none _ _ _ hall]
    simp
  refine ⟨h2, ?_⟩
  have h3 : ((addSymbol tbl sym e1).any fun r => decide (r.symbol = sym)) = true :=
    List.any_eq_true.mpr ⟨⟨sym, sym, e1⟩, List.mem_of_find?_eq_some h2, by simp⟩
  generalize hT : addSymbol tbl sym e1 = T at h3 ⊢
  unfold addSymbol
  rw [if_pos h3]

/-- C6 (witness): over an empty symbols table, a first sighting under
`NASDAQ` registers `(AAPL, AAPL, NASDAQ)` and a second sighting under
`NYSE` changes nothing. -/
theorem symbol_insert_if_absent_witness :
    lookupSym (addSymbol [] "AAPL".data "NASDAQ".data) "AAPL".data =
      some ⟨"AAPL".data, "AAPL".data, "NASDAQ".data⟩ ∧
    addSymbol (addSymbol [] "AAPL".data "NASDAQ".data) "AAPL".data
        "NYSE".data =
      addSymbol [] "AAPL".data "NASDAQ".data :=
  symbol_insert_if_absent [] "AAPL".data "NASDAQ".data "NYSE".data
    (by decide)

/-- C7 (counterexample): the fast variant's final report divides the
grand total by the elapsed time with no guard, so a zero elapsed time
makes it raise `ZeroDivisionError` — the report is not guarded in all
variants the claim covers. -/
theorem fast_report_divzero_at_zero :
    fastSpeedReport 100 0 = .zeroDivError := by
  unfold fastSpeedReport
  simp

/-- C7 (amended): the robust and single variants guard the throughput
line with `if duration > 0` and never divide by zero; the fast variant
has no guard and raises `ZeroDivisionError` exactly when the elapsed
time is zero. -/
theorem speed_report_guards (total : ℕ) (duration : ℚ) :
    robustSpeedReport total duration ≠ .zeroDivError ∧
    singleSpeedReport total duration ≠ .zeroDivError ∧
    (fastSpeedReport total duration = .zeroDivError ↔ duration = 0) := by
  refine ⟨?_, ?_, ?_⟩ <;>
    simp only [robustSpeedReport, singleSpeedReport, fastSpeedReport] <;>
    split <;> simp_all

/-- A ten-element list destructs into its ten elements. -/
theorem exists_ten (l : List (List Char)) (h : l.length = 10) :
    ∃ a0 a1 a2 a3 a4 a5 a6 a7 a8 a9,
      l = [a0, a1, a2, a3, a4, a5, a6, a7, a8, a9] := by
  rcases l with _ | ⟨a0, _ | ⟨a1, _ | ⟨a2, _ | ⟨a3, _ | ⟨a4, _ | ⟨a5, _ |
    ⟨a6, _ | ⟨a7, _ | ⟨a8, _ | ⟨a9, rest⟩⟩⟩⟩⟩⟩⟩⟩⟩⟩
  all_goals simp_all

/-- The parse outcome of a ten-field line depends only on the ticker,
date and five numeric fields — positions 1 (period), 3 (time) and 9
(open interest) never influence it. -/
theorem parseFields_eq_of_agree (xs ys : List (List Char))
    (hx : xs.length = 10) (hy : ys.length = 10)
    (h0 : xs[0]? = ys[0]?) (h2 : xs[2]? = ys[2]?) (h4 : xs[4]? = ys[4]?)
    (h5 : xs[5]? = ys[5]?) (h6 : xs[6]? = ys[6]?) (h7 : xs[7]? = ys[7]?)
    (h8 : xs[8]? = ys[8]?) :
    parseFields xs = parseFields ys := by
  obtain ⟨a0, a1, a2, a3, a4, a5, a6, a7, a8, a9, rfl⟩ := exists_ten xs hx
  obtain ⟨b0, b1, b2, b3, b4, b5, b6, b7, b8, b9, rfl⟩ := exists_ten ys hy
  simp only [List.getElem?_cons_zero, List.getElem?_cons_succ,
    Option.some.injEq] at h0 h2 h4 h5 h6 h7 h8
  show parse10 a0 a2 a4 a5 a6 a7 a8 = parse10 b0 b2 b4 b5 b6 b7 b8
  rw [h0, h2, h4, h5, h6, h7, h8]

/-- Line-level form: two lines related by `sameCore` parse alike. -/
theorem parse_eq_of_sameCore (l1 l2 : List Char) (h : sameCore l1 l2) :
    parse_csv_line l1 = parse_csv_line l2 := by
  obtain ⟨hx, hy, h0, h2, h4, h5, h6, h7, h8⟩ := h
  exact parseFields_eq_of_agree _ _ hx hy h0 h2 h4 h5 h6 h7 h8

/-- The ingest loop is determined by the parse outcomes of its lines. -/
theorem ingestLoop_congr (t : Table) (p e : ℕ) (ls1 ls2 : List (List Char))
    (h : List.Forall₂ (fun a b => parse_csv_line a = parse_csv_line b)
      ls1 ls2) :
    ingestLoop t ls1 p e = ingestLoop t ls2 p e := by
  induction h generalizing t p e with
  | nil => rfl
  | @cons a b l1 l2 hab htl ih =>
    show ingestLoop t (a :: l1) p e = ingestLoop t (b :: l2) p e
    unfold ingestLoop
    rw [hab]
    cases parse_csv_line b with
    | ok bar => exact ih _ _ _
    | reject => exact ih _ _ _
    | exn => rfl

/-- C8: after summarization at time `now`, every symbol having at least
one price-bar row has exactly one freshness row, with status `active`,
`error_count` 0 and `last_updated` equal to `now`; for a symbol with no
price-bar row, nothing is written — its freshness rows are exactly what
they were before. -/
theorem update_data_freshness_spec (fresh : FreshTable) (prices : Table)
    (now : ℕ) (s : List Char) :
    ((∃ r ∈ prices, r.symbol = s) →
      lookupFresh (update_data_freshness fresh prices now) s =
        some ⟨s, now, "active".data, 0⟩ ∧
      countFresh (update_data_freshness fresh prices now) s = 1) ∧
    ((∀ r ∈ prices, r.symbol ≠ s) →
      lookupFresh (update_data_freshness fresh prices now) s =
        lookupFresh fresh s ∧
      countFresh (update_data_freshness fresh prices now) s =
        countFresh fresh s) := by
  have hmem : (s ∈ groupSymbols prices) ↔ ∃ r ∈ prices, r.symbol = s := by
    simp [groupSymbols, List.mem_dedup, List.mem_map]
  unfold update_data_freshness
  constructor
  · intro hex
    rw [lookupFresh_fold, countFresh_fold, if_pos (hmem.mpr hex),
      if_pos (hmem.mpr hex)]
    exact ⟨rfl, rfl⟩
  · intro hnone
    have hns : s ∉ groupSymbols prices := by
      intro hc
      obtain ⟨r, hr, hrs⟩ := hmem.mp hc
      exact hnone r hr hrs
    rw [lookupFresh_fold, countFresh_fold, if_neg hns, if_neg hns]
    exact ⟨rfl, rfl⟩

/-- C8 (witness): with one `AAPL` price row and an empty freshness
table, summarizing at time 99 yields exactly one active `AAPL` row
updated at 99, and writes nothing for the absent symbol `MSFT`. -/
theorem update_data_freshness_spec_witness :
    (lookupFresh (update_data_freshness []
        [⟨"AAPL".data, "2023-01-03".data, .finite 1250 1, .finite 1305 1,
          .finite 1240 1, .finite 1290 1, .finite 1000000 0⟩] 99)
        "AAPL".data =
      some ⟨"AAPL".data, 99, "active".data, 0⟩ ∧
    countFresh (update_data_freshness []
        [⟨"AAPL".data, "2023-01-03".data, .finite 1250 1, .finite 1305 1,
          .finite 1240 1, .finite 1290 1, .finite 1000000 0⟩] 99)
        "AAPL".data = 1) ∧
    (lookupFresh (update_data_freshness []
        [⟨"AAPL".data, "2023-01-03".data, .finite 1250 1, .finite 1305 1,
          .finite 1240 1, .finite 1290 1, .finite 1000000 0⟩] 99)
        "MSFT".data =
      lookupFresh [] "MSFT".data ∧
    countFresh (update_data_freshness []
        [⟨"AAPL".data, "2023-01-03".data, .finite 1250 1, .finite 1305 1,
          .finite 1240 1, .finite 1290 1, .finite 1000000 0⟩] 99)
        "MSFT".data = countFresh [] "MSFT".data) := by
  constructor
  · exact (update_data_freshness_spec []
      [⟨"AAPL".data, "2023-01-03".data, .finite 1250 1, .finite 1305 1,
        .finite 1240 1, .finite 1290 1, .finite 1000000 0⟩] 99
      "AAPL".data).1 (by decide)
  · exact (update_data_freshness_spec []
      [⟨"AAPL".data, "2023-01-03".data, .finite 1250 1, .finite 1305 1,
        .finite 1240 1, .finite 1290 1, .finite 1000000 0⟩] 99
      "MSFT".data).2 (by decide)

/-- C9: the price-bar rows written for a file are independent of the
exchange label passed to the file ingestor and of each data line's
period, time and open-interest fields: two ingestions whose data lines
agree on ticker, date and the five numeric fields (and whose files have
equally many data lines) leave identical price-bar tables, whatever the
two exchange labels and the discarded fields are. -/
theorem price_rows_independent (exch1 exch2 : List Char) (t : Table)
    (lines1 lines2 : List (List Char))
    (h : List.Forall₂ sameCore (lines1.drop 1) (lines2.drop 1)) :
    (process_data_file exch1 t lines1).1 =
      (process_data_file exch2 t lines2).1 := by
  unfold process_data_file
  rw [ingestLoop_congr t 0 0 _ _ (h.imp parse_eq_of_sameCore)]

/-- C9 (witness): changing the exchange label `NASDAQ` to `NYSE`, the
period `D` to `W`, the time `000000` to `235959` and the open interest
`0` to `7` leaves the written price-bar table identical. -/
theorem price_rows_independent_witness :
    (process_data_file "NASDAQ".data [] ["header".data,
      "AAPL.US,D,20230103,000000,125.0,130.5,124.0,129.0,1000000,0".data]).1 =
    (process_data_file "NYSE".data [] ["another header".data,
      "AAPL.US,W,20230103,235959,125.0,130.5,124.0,129.0,1000000,7".data]).1 :=
  price_rows_independent "NASDAQ".data "NYSE".data [] _ _
    (List.Forall₂.cons (by decide) List.Forall₂.nil)

/-- C10: for a readable file none of whose data lines splits into more
than 10 comma-separated fields, the file ingestor's two counters
partition the data lines: records written plus records rejected equals
the number of lines minus the one unconditionally discarded first line
(truncated subtraction, so an empty file gives 0). -/
theorem ingest_counts_partition (exchange : List Char) (t : Table)
    (lines : List (List Char))
    (h : ∀ l ∈ lines.drop 1, (splitComma (pyStrip l)).length ≤ 10) :
    (process_data_file exchange t lines).2.1 +
      (process_data_file exchange t lines).2.2 = lines.length - 1 := by
  unfold process_data_file
  rw [ingestLoop_counts]
  · simp
  · intro l hl hexn
    have := (parseFields_exn_iff _).mp hexn
    have hle := h l hl
    omega

/-- C10 (witness): a file with a header, one valid line and one
malformed line counts 1 written + 1 rejected = 3 − 1 lines. -/
theorem ingest_counts_partition_witness :
    (process_data_file "NYSE".data [] ["header".data,
      "AAPL.US,D,20230103,000000,125.0,130.5,124.0,129.0,1000000,0".data,
      "bad,line".data]).2.1 +
    (process_data_file "NYSE".data [] ["header".data,
      "AAPL.US,D,20230103,000000,125.0,130.5,124.0,129.0,1000000,0".data,
      "bad,line".data]).2.2 = 2 :=
  ingest_counts_partition "NYSE".data [] ["header".data,
    "AAPL.US,D,20230103,000000,125.0,130.5,124.0,129.0,1000000,0".data,
    "bad,line".data] (by decide)

end Ingest
